import Mathlib

/-!
# ghatoken: specifier parsing, key-format dispatch and installation lookup

A shallow embedding of `cmd/ghatoken/main.go` (`parseRepoURL`) and of `lib.go`
(`CreateRSAPrivateKeyFromPEM`, `CreateInstallationTokenForOrgOrUser`,
`CreateInstallationTokenForRepo`), followed by theorems about them.

Conventions of the embedding:

* a Go `string` is its sequence of bytes, each byte a natural number;
* a Go function that can return an error or stop with a run-time panic returns
  an `Outcome`;
* functions of libraries outside the repository (`net/url`, `encoding/pem`,
  `crypto/x509`, `pkcs8`, `go-github`) are parameters of the embedding: every
  theorem holds for every behaviour of those libraries, unless a hypothesis
  says what a call returned.
-/

set_option autoImplicit false

namespace Ghatoken

/-! ## Go values -/

/-- A Go string: a sequence of bytes. -/
abbrev GoString := List Nat

/-- The bytes (UTF-8) of a string literal. -/
def bytes (s : String) : GoString := s.toUTF8.data.toList.map UInt8.toNat

/-- A Go `error` value: `new` carries a message, `wrap` is the result of
`fmt.Errorf` with a `%w` verb, keeping both the formatted message and the cause. -/
inductive GoError where
  | new (text : GoString)
  | wrap (text : GoString) (cause : GoError)
  deriving DecidableEq

/-- The method `Error()`: the message of an error. -/
def GoError.Error : GoError → GoString
  | .new text => text
  | .wrap text _ => text

/-- The call `fmt.Errorf(format)` with no verb in the format. -/
def Errorf (text : String) : GoError := .new (bytes text)

/-- The call `fmt.Errorf(pre + "%w", err)`: the message ends with the message of
the cause, which stays reachable by unwrapping. -/
def ErrorfW (pre : GoString) (err : GoError) : GoError := .wrap (pre ++ err.Error) err

/-- What a call of a Go function ends with: a value, a returned error, or a
run-time panic that aborts the program. -/
inductive Outcome (α : Type) where
  | ok (v : α)
  | error (e : GoError)
  | panic (msg : GoString)
  deriving DecidableEq

/-- Sequencing of Go statements: the first error or panic ends the call. -/
def Outcome.bind {α β : Type} (x : Outcome α) (f : α → Outcome β) : Outcome β :=
  match x with
  | .ok v => f v
  | .error e => .error e
  | .panic msg => .panic msg

instance : Monad Outcome where
  pure := Outcome.ok
  bind := Outcome.bind

/-- Lift the pair `(value, error)` returned by a library function. -/
def Outcome.ofExcept {α : Type} : Except GoError α → Outcome α
  | .ok v => .ok v
  | .error e => .error e

/-- An index expression `xs[i]`: out of range it panics. -/
def index {α : Type} (xs : List α) (i : Nat) : Outcome α :=
  match xs.get? i with
  | some x => .ok x
  | none => .panic (bytes "runtime error: index out of range")

/-- The message of the panic raised by dereferencing a nil pointer. -/
def nilDereference : GoString :=
  bytes "runtime error: invalid memory address or nil pointer dereference"

/-! ## Package `strings` -/

/-- The function `strings.HasPrefix`. -/
def HasPrefix (s pre : GoString) : Bool :=
  decide (pre.length ≤ s.length ∧ s.take pre.length = pre)

/-- The function `strings.HasSuffix`. -/
def HasSuffix (s suffix : GoString) : Bool :=
  decide (suffix.length ≤ s.length ∧ s.drop (s.length - suffix.length) = suffix)

/-- The function `strings.Index`: the position of the first instance of `substr`
in `s`, `none` standing for Go's `-1`. -/
def Index : GoString → GoString → Option Nat
  | [], substr => if substr = [] then some 0 else none
  | c :: t, substr =>
    if HasPrefix (c :: t) substr then some 0 else (Index t substr).map (· + 1)

/-- The function `strings.Contains`. -/
def Contains (s substr : GoString) : Bool := (Index s substr).isSome

/-- The function `strings.ContainsRune` for a rune below `0x80`, which the
library looks up as a single byte. -/
def ContainsRune (s : GoString) (r : Nat) : Bool := decide (r ∈ s)

/-- The loop of `strings.genSplit`: cut at the first instance of `sep`, at most
`k` times, the last element being the unsplit rest. -/
def genSplitLoop (sep : GoString) : Nat → GoString → List GoString
  | 0, s => [s]
  | k + 1, s =>
    match Index s sep with
    | none => [s]
    | some m => s.take m :: genSplitLoop sep k (s.drop (m + sep.length))

/-- The function `strings.SplitN` for a non-empty separator and `n ≥ 0`: at most
`n` substrings (the library also caps `n` at `len(s) + 1`). -/
def SplitN (s sep : GoString) (n : Nat) : List GoString :=
  if n = 0 then [] else genSplitLoop sep (min n (s.length + 1) - 1) s

/-- The function `strings.Split` for a non-empty separator: cut at every
instance of `sep` (there are at most `len(s)` of them). -/
def Split (s sep : GoString) : List GoString := genSplitLoop sep s.length s

/-- The function `strings.CutSuffix`. -/
def CutSuffix (s suffix : GoString) : GoString × Bool :=
  if HasSuffix s suffix then (s.take (s.length - suffix.length), true) else (s, false)

/-! ## `cmd/ghatoken/main.go` -/

/-- The struct `repoInfo`; an empty `EnterpriseDomain` means github.com, an empty
`Repo` means the target is an org or a user. -/
structure repoInfo where
  EnterpriseDomain : GoString
  Owner : GoString
  Repo : GoString
  deriving DecidableEq

/-- What `parseRepoURL` reads of a parsed `*url.URL`: the result of the method
`Hostname()` and the field `Path`. -/
structure URL where
  Hostname : GoString
  Path : GoString
  deriving DecidableEq

/-- The type of `url.Parse`, a function of the standard library. -/
abbrev UrlParse := GoString → Except GoError URL

/-- The constant `githubDotComDomain`. -/
def githubDotComDomain : GoString := bytes "github.com"

/-- The error `fmt.Errorf("invalid repo URL format")`. -/
def errInvalidFormat : GoError := Errorf "invalid repo URL format"

/-- Lines 50-88 of `parseRepoURL`: the three-way branch that computes
`enterpriseDomain` and `path`. -/
def specifierPath (urlParse : UrlParse) (repoUrl : GoString) : Outcome (GoString × GoString) :=
  if Contains repoUrl (bytes "://") then
    match urlParse repoUrl with
    | .error err => .error err
    | .ok u =>
      let enterpriseDomain := if u.Hostname ≠ githubDotComDomain then u.Hostname else []
      -- `path = u.Path[1:]`
      match u.Path with
      | [] => .panic (bytes "runtime error: slice bounds out of range [1:0]")
      | _ :: path => .ok (enterpriseDomain, path)
  else if ContainsRune repoUrl 58 then do
    let parts := SplitN repoUrl (bytes ":") (2 + 1)
    if parts.length > 2 then .error errInvalidFormat
    else
      let parts0 ← index parts 0
      let items := Split parts0 (bytes "@")
      let domain ←
        match items.length with
        | 1 => index items 0
        | 2 => index items 1
        | _ => .error errInvalidFormat
      let enterpriseDomain := if domain ≠ githubDotComDomain then domain else []
      let path ← index parts 1
      .ok (enterpriseDomain, path)
  else
    .ok ([], repoUrl)

/-- Lines 90-104 of `parseRepoURL`: split `path` into owner and repo. -/
def splitOwnerRepo (enterpriseDomain path : GoString) : Outcome repoInfo := do
  let items := SplitN path (bytes "/") (2 + 1)
  -- `len(items) > 2 && len(items[2]) > 0 || items[0] == ""`
  let extra ←
    if items.length > 2 then do
      let items2 ← index items 2
      pure (decide (items2.length > 0))
    else pure false
  let malformed ←
    if extra then pure true
    else do
      let items0 ← index items 0
      pure (decide (items0 = []))
  if malformed then .error errInvalidFormat
  else
    let repo ←
      if items.length ≥ 2 then do
        let items1 ← index items 1
        if items1.length > 0 then pure (CutSuffix items1 (bytes ".git")).1 else pure []
      else pure []
    let owner ← index items 0
    .ok { EnterpriseDomain := enterpriseDomain, Owner := owner, Repo := repo }

/-- The function `parseRepoURL`. -/
def parseRepoURL (urlParse : UrlParse) (repoUrl : GoString) : Outcome repoInfo := do
  let (enterpriseDomain, path) ← specifierPath urlParse repoUrl
  splitOwnerRepo enterpriseDomain path

/-! ## `lib.go`: decoding the private key -/

/-- The struct `pem.Block`. -/
structure Block where
  Typ : GoString
  Headers : List (GoString × GoString)
  Bytes : GoString
  deriving DecidableEq

/-- The functions of `encoding/pem`, `crypto/x509` and `pkcs8` that `lib.go`
calls; `Key` stands for `*rsa.PrivateKey`. -/
structure KeyLibrary (Key : Type) where
  /-- The block returned by `pem.Decode`, `none` for a nil block. -/
  pemDecode : GoString → Option Block
  /-- The function `x509.IsEncryptedPEMBlock`. -/
  IsEncryptedPEMBlock : Block → Bool
  /-- The function `x509.DecryptPEMBlock`. -/
  DecryptPEMBlock : Block → GoString → Except GoError GoString
  /-- The value `x509.IncorrectPasswordError`. -/
  IncorrectPasswordError : GoError
  /-- The function `x509.ParsePKCS1PrivateKey`. -/
  ParsePKCS1PrivateKey : GoString → Except GoError Key
  /-- The variadic function `pkcs8.ParsePKCS8PrivateKeyRSA`. -/
  ParsePKCS8PrivateKeyRSA : GoString → List GoString → Except GoError Key

/-- The function `decodeLegacyPEMasRSAPrivateKey`. -/
def decodeLegacyPEMasRSAPrivateKey {Key : Type} (lib : KeyLibrary Key) (block : Block)
    (passphrase : GoString) : Outcome Key :=
  if block.Typ ≠ bytes "RSA PRIVATE KEY" then
    .panic (bytes "Invalid PEM type. \x27" ++ block.Typ ++ bytes "\x27")
  else if lib.IsEncryptedPEMBlock block then
    if passphrase.length = 0 then
      .error (Errorf "encrypted key found, but passphrase was not supplied")
    else
      match lib.DecryptPEMBlock block passphrase with
      | .error err =>
        if err = lib.IncorrectPasswordError then
          .error (ErrorfW (bytes "incorrect passphrase. ") err)
        else
          .error (ErrorfW (bytes "decrypt failed: ") err)
      | .ok decrypted => .ofExcept (lib.ParsePKCS1PrivateKey decrypted)
  else
    .ofExcept (lib.ParsePKCS1PrivateKey block.Bytes)

/-- The error of the `default` case of `CreateRSAPrivateKeyFromPEM`:
`fmt.Errorf("unsupported PEM file: '%s'", block.Type)`. -/
def errUnsupported (typ : GoString) : GoError :=
  .new (bytes "unsupported PEM file: \x27" ++ typ ++ bytes "\x27")

/-- The function `CreateRSAPrivateKeyFromPEM`. -/
def CreateRSAPrivateKeyFromPEM {Key : Type} (lib : KeyLibrary Key) (data passphrase : GoString) :
    Outcome Key :=
  match lib.pemDecode data with
  | none => .error (Errorf "PEM block not found")
  | some block =>
    -- the `switch block.Type`; `none` is the `default` case, which returns at once
    let decoded : Option (Outcome Key) :=
      if block.Typ = bytes "RSA PRIVATE KEY" then
        some (decodeLegacyPEMasRSAPrivateKey lib block passphrase)
      else if block.Typ = bytes "PRIVATE KEY" then
        some (.ofExcept (lib.ParsePKCS8PrivateKeyRSA block.Bytes []))
      else if block.Typ = bytes "ENCRYPTED PRIVATE KEY" then
        some (.ofExcept (lib.ParsePKCS8PrivateKeyRSA block.Bytes [passphrase]))
      else none
    match decoded with
    | none => .error (errUnsupported block.Typ)
    | some (.error err) => .error (ErrorfW (bytes "failed to decode private key. ") err)
    | some (.panic msg) => .panic msg
    | some (.ok key) => .ok key

/-! ## `lib.go`: installation lookup and token request -/

/-- The struct `OwnerMode`. -/
structure OwnerMode where
  TryOrg : Bool
  TryUser : Bool
  deriving DecidableEq

/-- What `lib.go` reads of a `github.Response`: the status code. -/
structure Response where
  StatusCode : Int
  deriving DecidableEq

/-- What `lib.go` reads of a `github.Installation`: the field `ID`, a `*int64`. -/
structure Installation where
  ID : Option Int
  deriving DecidableEq

/-- The struct `github.InstallationTokenOptions`, of which only `Repositories`
is ever set; the nil slice is the empty list. -/
structure InstallationTokenOptions where
  Repositories : List GoString
  deriving DecidableEq

/-- What `lib.go` reads of a `github.InstallationToken`: the field `Token`, a
`*string`. -/
structure InstallationToken where
  Token : Option GoString
  deriving DecidableEq

/-- The methods of `client.Apps` that `lib.go` calls. Each returns a pointer, a
`*github.Response` and an `error`, any of which may be nil. -/
structure AppsService where
  FindOrganizationInstallation :
    GoString → Option Installation × Option Response × Option GoError
  FindUserInstallation :
    GoString → Option Installation × Option Response × Option GoError
  FindRepositoryInstallation :
    GoString → GoString → Option Installation × Option Response × Option GoError
  CreateInstallationToken :
    Int → InstallationTokenOptions →
      Option InstallationToken × Option Response × Option GoError

/-- A request made through `client.Apps`. -/
inductive ApiCall where
  | FindOrganizationInstallation (org : GoString)
  | FindUserInstallation (user : GoString)
  | FindRepositoryInstallation (owner repo : GoString)
  | CreateInstallationToken (id : Int) (opts : InstallationTokenOptions)
  deriving DecidableEq

/-- A run of a function of `lib.go`: the requests it made, in order, and how it
ended. -/
structure Run (α : Type) where
  calls : List ApiCall
  outcome : Outcome α

/-- Sequencing of runs: requests accumulate, the first error or panic ends the
run. -/
def Run.bind {α β : Type} (x : Run α) (f : α → Run β) : Run β :=
  match x.outcome with
  | .ok v => { calls := x.calls ++ (f v).calls, outcome := (f v).outcome }
  | .error e => { calls := x.calls, outcome := .error e }
  | .panic msg => { calls := x.calls, outcome := .panic msg }

instance : Monad Run where
  pure v := { calls := [], outcome := .ok v }
  bind := Run.bind

/-- Make a request and receive what the client returns. -/
def request {α : Type} (call : ApiCall) (result : α) : Run α :=
  { calls := [call], outcome := .ok result }

/-- A statement `return nil, err`. -/
def fail {α : Type} (err : GoError) : Run α := { calls := [], outcome := .error err }

/-- A pointer dereference (`*p` or `p.field`): on nil it panics. -/
def deref {α : Type} : Option α → Run α
  | some v => { calls := [], outcome := .ok v }
  | none => { calls := [], outcome := .panic nilDereference }

/-- The error of line 111: `fmt.Errorf("...: failed to find org '%s'. %w", owner, err)`. -/
def errFindOrg (owner : GoString) (err : GoError) : GoError :=
  ErrorfW (bytes "createInstallationTokenForOrgOrUser: failed to find org \x27" ++ owner
    ++ bytes "\x27. ") err

/-- The error of line 120: `fmt.Errorf("...: failed to find user '%s'. %w", owner, err)`. -/
def errFindUser (owner : GoString) (err : GoError) : GoError :=
  ErrorfW (bytes "createInstallationTokenForOrgOrUser: failed to find user \x27" ++ owner
    ++ bytes "\x27. ") err

/-- The error of line 125, returned when no installation was obtained:
`fmt.Errorf("...: failed to find org '%s'", owner)`. -/
def errNoInstallation (owner : GoString) : GoError :=
  .new (bytes "createInstallationTokenForOrgOrUser: failed to find org \x27" ++ owner
    ++ bytes "\x27")

/-- The error of line 141:
`fmt.Errorf("...: failed to find repo '%s/%s'. %w", owner, repo, err)`. -/
def errFindRepo (owner repo : GoString) (err : GoError) : GoError :=
  ErrorfW (bytes "createInstallationTokenForRepo: failed to find repo \x27" ++ owner
    ++ bytes "/" ++ repo ++ bytes "\x27. ") err

/-- The function `CreateInstallationTokenForOrgOrUser`. -/
def CreateInstallationTokenForOrgOrUser (client : AppsService) (owner : GoString)
    (ownerMode : OwnerMode) : Run (Option GoString) := do
  let installation : Option Installation := none
  let installation ←
    if ownerMode.TryOrg then do
      let (installation, resp, err) ←
        request (.FindOrganizationInstallation owner) (client.FindOrganizationInstallation owner)
      match err with
      | none => pure installation
      | some err => do
        let resp ← deref resp
        if resp.StatusCode = 404 then
          -- not found for the org (may retry with user)
          pure installation
        else
          fail (errFindOrg owner err)
    else pure installation
  let installation ←
    if ownerMode.TryUser then do
      let (installation, _, err) ←
        request (.FindUserInstallation owner) (client.FindUserInstallation owner)
      match err with
      | none => pure installation
      | some err => fail (errFindUser owner err)
    else pure installation
  match installation with
  | none => fail (errNoInstallation owner)
  | some installation => do
    let id ← deref installation.ID
    let (token, _, err) ←
      request (.CreateInstallationToken id ⟨[]⟩) (client.CreateInstallationToken id ⟨[]⟩)
    match err with
    | some err =>
      fail (ErrorfW
        (bytes "createInstallationTokenForOrgOrUser: failed to create installation token. ") err)
    | none => do
      let token ← deref token
      pure token.Token

/-- The function `CreateInstallationTokenForOrg`. -/
def CreateInstallationTokenForOrg (client : AppsService) (org : GoString) :
    Run (Option GoString) :=
  CreateInstallationTokenForOrgOrUser client org { TryOrg := true, TryUser := false }

/-- The function `CreateInstallationTokenForUser`. -/
def CreateInstallationTokenForUser (client : AppsService) (user : GoString) :
    Run (Option GoString) :=
  CreateInstallationTokenForOrgOrUser client user { TryOrg := false, TryUser := true }

/-- The function `CreateInstallationTokenForRepo`. -/
def CreateInstallationTokenForRepo (client : AppsService) (owner repo : GoString)
    (restrictScopeToRepo : Bool) : Run (Option GoString) := do
  let (installation, _, err) ←
    request (.FindRepositoryInstallation owner repo) (client.FindRepositoryInstallation owner repo)
  match err with
  | some err => fail (errFindRepo owner repo err)
  | none => do
    let options : InstallationTokenOptions :=
      if restrictScopeToRepo then { Repositories := [repo] } else { Repositories := [] }
    let installation ← deref installation
    let id ← deref installation.ID
    let (token, _, err) ←
      request (.CreateInstallationToken id options) (client.CreateInstallationToken id options)
    match err with
    | some err =>
      fail (ErrorfW
        (bytes "createInstallationTokenForRepo: failed to create installation token. ") err)
    | none => do
      let token ← deref token
      pure token.Token

/-! ## Reference definitions, from the specification -/

/-- Reference: the text before the first `c` (everything when there is none). -/
def upTo (c : Nat) (s : GoString) : GoString := s.takeWhile (fun x => x != c)

/-- Reference: the text after the first `c`, `none` when there is no `c`. -/
def past (c : Nat) (s : GoString) : Option GoString :=
  match s.dropWhile (fun x => x != c) with
  | [] => none
  | _ :: rest => some rest

/-- Reference: split on `/` into at most 3 parts, the third being all the text
after the second `/`. -/
def slashParts (s : GoString) : List GoString :=
  match past 47 s with
  | none => [s]
  | some r1 =>
    match past 47 r1 with
    | none => [upTo 47 s, r1]
    | some r2 => [upTo 47 s, upTo 47 r1, r2]

/-- Reference: remove one trailing `.git`. -/
def stripGit (s : GoString) : GoString :=
  match s.reverse with
  | 116 :: 105 :: 103 :: 46 :: r => r.reverse
  | _ => s

/-- Reference: the parse of a bare specifier as the specification words it;
`none` is the `ParseError`. -/
def bareReference (s : GoString) : Option repoInfo :=
  let parts := slashParts s
  let first := (parts.get? 0).getD []
  let second := parts.get? 1
  let third := parts.get? 2
  if first = [] ∨ (∃ t, third = some t ∧ t ≠ []) then none
  else
    some {
      EnterpriseDomain := []
      Owner := first
      Repo :=
        match second with
        | some sec => if sec ≠ [] then stripGit sec else []
        | none => [] }

/-- Reference: the text after the last `c` (everything when there is none). -/
def afterLast (c : Nat) (s : GoString) : GoString := (upTo c s.reverse).reverse

/-- Reference: the enterprise host of a host name, absent (empty) for the
public host `github.com`. -/
def enterpriseOf (host : GoString) : GoString :=
  if host = githubDotComDomain then [] else host

/-- Reference: the second `/`-separated segment of a remainder, `none` when the
remainder has no `/`. -/
def secondSegment (path : GoString) : Option GoString := (past 47 path).map (upTo 47)

/-- The specifier rebuilt from a parse result: the owner alone when the repo is
absent, `owner/repo` otherwise. -/
def reconstruct (info : repoInfo) : GoString :=
  if info.Repo = [] then info.Owner else info.Owner ++ bytes "/" ++ info.Repo

/-- How a run ends from the token request on (lines 128-133 and 150-155): the
error of the request wrapped under `pre`, or the field `Token` of the token. -/
def tokenOutcome (pre : GoString)
    (result : Option InstallationToken × Option Response × Option GoError) :
    Outcome (Option GoString) :=
  match result with
  | (_, _, some err) => .error (ErrorfW pre err)
  | (none, _, none) => .panic nilDereference
  | (some token, _, none) => .ok token.Token

/-! ## Instances of the library parameters, for the examples -/

/-- An instance of `url.Parse` that rejects every input, for specifiers that
never reach it. -/
def urlParseNever : UrlParse := fun _ => .error (Errorf "unreachable")

/-- An instance of `url.Parse` for plain URLs `scheme://host/path` (no user
info, port, query, fragment or escape), on which the host name is the text
between `://` and the next `/` and the path is the rest, slash included. -/
def urlParsePlain : UrlParse := fun rawURL =>
  match Index rawURL (bytes "://") with
  | none => .error (Errorf "not a plain URL")
  | some m =>
    let rest := rawURL.drop (m + 3)
    .ok { Hostname := rest.takeWhile (fun x => x != 47), Path := rest.dropWhile (fun x => x != 47) }

/-- A client for the examples: the org lookup answers 404, the user lookup finds
installation 7, the repository lookup finds installation 9 and every token
request is granted. -/
def clientOrgNotFound : AppsService where
  FindOrganizationInstallation := fun _ => (none, some ⟨404⟩, some (Errorf "404 Not Found"))
  FindUserInstallation := fun _ => (some ⟨some 7⟩, some ⟨200⟩, none)
  FindRepositoryInstallation := fun _ _ => (some ⟨some 9⟩, some ⟨200⟩, none)
  CreateInstallationToken := fun _ _ => (some ⟨some (bytes "ghs_token")⟩, some ⟨201⟩, none)

/-- A client for the examples: no request reaches the server, so every method
returns a nil response and a transport error. -/
def clientUnreachable : AppsService where
  FindOrganizationInstallation := fun _ =>
    (none, none, some (Errorf "dial tcp: connection refused"))
  FindUserInstallation := fun _ => (none, none, some (Errorf "dial tcp: connection refused"))
  FindRepositoryInstallation := fun _ _ =>
    (none, none, some (Errorf "dial tcp: connection refused"))
  CreateInstallationToken := fun _ _ => (none, none, some (Errorf "dial tcp: connection refused"))

/-- A key library for the examples: every input decodes to one block of type
`FOO`, and no key ever parses. -/
def keyLibraryFoo : KeyLibrary Unit where
  pemDecode := fun data => some { Typ := bytes "FOO", Headers := [], Bytes := data }
  IsEncryptedPEMBlock := fun _ => false
  DecryptPEMBlock := fun _ _ => .error (Errorf "x509: no DEK-Info header in block")
  IncorrectPasswordError := Errorf "x509: decryption password incorrect"
  ParsePKCS1PrivateKey := fun _ => .error (Errorf "x509: failed to parse private key")
  ParsePKCS8PrivateKeyRSA := fun _ _ => .error (Errorf "pkcs8: failed to parse private key")

/-- A key library for the examples: no input holds a PEM block. -/
def keyLibraryEmpty : KeyLibrary Unit :=
  { keyLibraryFoo with pemDecode := fun _ => none }

/-! ## Lemmas on the `strings` functions and on the two halves of `parseRepoURL` -/

theorem bytes_slash : bytes "/" = [47] := by decide
theorem bytes_colon : bytes ":" = [58] := by decide
theorem bytes_at : bytes "@" = [64] := by decide
theorem bytes_scheme : bytes "://" = [58, 47, 47] := by decide
theorem bytes_git : bytes ".git" = [46, 103, 105, 116] := by decide

theorem upTo_append_of_past {c : Nat} {s r : GoString} (h : past c s = some r) :
    s = upTo c s ++ c :: r := by
  have h1 := List.takeWhile_append_dropWhile (fun x => x != c) s
  unfold past at h
  unfold upTo
  cases hd : s.dropWhile (fun x => x != c) with
  | nil => rw [hd] at h; exact absurd h (by simp)
  | cons a t =>
    rw [hd] at h
    have hat : a = c := by
      have := List.head_dropWhile_not (fun x => x != c) s (by rw [hd]; simp)
      simp [hd] at this
      exact this
    simp at h
    subst h; subst hat
    rw [hd] at h1
    exact h1.symm

theorem past_cons (c a : Nat) (t : GoString) :
    past c (a :: t) = if a = c then some t else past c t := by
  unfold past
  by_cases h : a = c
  · simp [h, List.dropWhile_cons]
  · have hb : (a != c) = true := by simpa using h
    simp [h, hb, List.dropWhile_cons]

theorem upTo_cons (c a : Nat) (t : GoString) :
    upTo c (a :: t) = if a = c then [] else a :: upTo c t := by
  unfold upTo
  by_cases h : a = c
  · simp [h, List.takeWhile_cons]
  · have hb : (a != c) = true := by simpa using h
    simp [h, hb, List.takeWhile_cons]

theorem past_eq_none_iff (c : Nat) (s : GoString) : past c s = none ↔ c ∉ s := by
  induction s with
  | nil => simp [past]
  | cons a t ih =>
    rw [past_cons]
    by_cases h : a = c
    · simp [h]
    · simp [h, ih]
      exact fun _ => fun e => h e.symm

theorem not_mem_upTo (c : Nat) (s : GoString) : c ∉ upTo c s := by
  induction s with
  | nil => simp [upTo]
  | cons a t ih =>
    rw [upTo_cons]
    by_cases h : a = c
    · simp [h]
    · simp [h, ih]
      exact fun e => h e.symm

theorem upTo_of_not_mem {c : Nat} {s : GoString} (h : c ∉ s) : upTo c s = s := by
  induction s with
  | nil => simp [upTo]
  | cons a t ih =>
    rw [upTo_cons]
    simp at h
    have h1 : ¬ a = c := fun e => h.1 e.symm
    simp [h1, ih h.2]

theorem Index_single (c : Nat) (s : GoString) :
    Index s [c] = (past c s).map (fun _ => (upTo c s).length) := by
  induction s with
  | nil => simp [Index, past]
  | cons a t ih =>
    rw [past_cons, upTo_cons]
    by_cases h : a = c
    · simp [Index, HasPrefix, h]
    · simp [Index, HasPrefix, h, ih]
      cases past c t <;> simp

theorem genSplitLoop_single_succ (c k : Nat) (s : GoString) :
    genSplitLoop [c] (k + 1) s =
      match past c s with
      | none => [s]
      | some r => upTo c s :: genSplitLoop [c] k r := by
  rw [genSplitLoop, Index_single]
  cases h : past c s with
  | none => simp
  | some r =>
    have hs := upTo_append_of_past h
    simp only [Option.map_some', List.length_singleton]
    have h1 : List.take (upTo c s).length s = upTo c s := by
      have h : List.take (upTo c s).length (upTo c s ++ c :: r) = upTo c s :=
        List.take_left' rfl
      rwa [← hs] at h
    have h2 : List.drop ((upTo c s).length + 1) s = r := by
      have h : List.drop ((upTo c s).length + 1) ((upTo c s ++ [c]) ++ r) = r :=
        List.drop_left' (by simp)
      rwa [List.append_assoc, List.singleton_append, ← hs] at h
    rw [h1, h2]

theorem genSplitLoop_zero (sep s : GoString) : genSplitLoop sep 0 s = [s] := rfl

/-- The cap `n ≤ len(s) + 1` of `genSplit` makes no difference for `n = 3`. -/
theorem SplitN_three (c : Nat) (s : GoString) : SplitN s [c] (2 + 1) = genSplitLoop [c] 2 s := by
  unfold SplitN
  match s with
  | [] => simp [genSplitLoop_single_succ, genSplitLoop_zero, past]
  | [a] =>
    simp [genSplitLoop_single_succ, genSplitLoop_zero, past_cons]
    by_cases h : a = c <;> simp [h, past]
  | a :: b :: t =>
    have : min (2 + 1) ((a :: b :: t).length + 1) - 1 = 2 := by
      simp
    simp only [this]
    simp

theorem SplitN_slash (s : GoString) : SplitN s (bytes "/") (2 + 1) = slashParts s := by
  rw [bytes_slash, SplitN_three, genSplitLoop_single_succ]
  unfold slashParts
  cases h : past 47 s with
  | none => rfl
  | some r1 =>
    simp only [genSplitLoop_single_succ, genSplitLoop_zero]
    cases h2 : past 47 r1 <;> simp

theorem CutSuffix_git (s : GoString) : (CutSuffix s (bytes ".git")).1 = stripGit s := by
  rw [bytes_git]
  by_cases h : [46, 103, 105, 116] <:+ s
  · obtain ⟨t, rfl⟩ := h
    simp [CutSuffix, HasSuffix, stripGit]
  · have hs : HasSuffix s [46, 103, 105, 116] = false := by
      simp only [HasSuffix, decide_eq_false_iff_not, not_and]
      intro _ hd
      exact h (List.suffix_iff_eq_drop.2 hd.symm)
    have hc : (CutSuffix s [46, 103, 105, 116]).1 = s := by simp [CutSuffix, hs]
    rw [hc]
    unfold stripGit
    split
    · next r hr =>
      exfalso
      apply h
      refine ⟨r.reverse, ?_⟩
      have := congrArg List.reverse hr
      simp at this
      simp [this]
    · rfl

theorem index_zero_cons {α : Type} (a : α) (l : List α) : index (a :: l) 0 = .ok a := rfl
theorem index_one_cons {α : Type} (a b : α) (l : List α) : index (a :: b :: l) 1 = .ok b := rfl
theorem index_two_cons {α : Type} (a b c : α) (l : List α) :
    index (a :: b :: c :: l) 2 = .ok c := rfl

theorem Outcome.ok_bind {α β : Type} (v : α) (f : α → Outcome β) :
    (Outcome.ok v >>= f) = f v := rfl
theorem Outcome.pure_bind {α β : Type} (v : α) (f : α → Outcome β) :
    ((pure v : Outcome α) >>= f) = f v := rfl

/-- The three shapes of a split into at most 3 parts. -/
theorem slashParts_cases (s : GoString) :
    (past 47 s = none ∧ slashParts s = [s]) ∨
    (∃ r1, past 47 s = some r1 ∧ past 47 r1 = none ∧ slashParts s = [upTo 47 s, r1]) ∨
    (∃ r1 r2, past 47 s = some r1 ∧ past 47 r1 = some r2 ∧
      slashParts s = [upTo 47 s, upTo 47 r1, r2]) := by
  unfold slashParts
  cases h1 : past 47 s with
  | none => simp
  | some r1 =>
    cases h2 : past 47 r1 with
    | none => simp [h2]
    | some r2 => simp [h2]

/-- The second half of `parseRepoURL` does what the reference says of the bare
form, with the enterprise domain handed through. -/
theorem splitOwnerRepo_eq (ed path : GoString) :
    splitOwnerRepo ed path =
      match bareReference path with
      | some info => .ok { info with EnterpriseDomain := ed }
      | none => .error errInvalidFormat := by
  unfold splitOwnerRepo
  simp only [SplitN_slash]
  unfold bareReference
  rcases slashParts_cases path with ⟨_, h⟩ | ⟨r1, _, _, h⟩ | ⟨r1, r2, _, _, h⟩
  · simp only [h]
    by_cases hp : path = [] <;>
      simp [hp, index_zero_cons, Outcome.ok_bind, Outcome.pure_bind]
  · simp only [h]
    by_cases hp : upTo 47 path = [] <;> by_cases hr : r1 = [] <;>
      simp [hp, hr, index_zero_cons, index_one_cons, Outcome.ok_bind, Outcome.pure_bind,
        CutSuffix_git]
  · simp only [h]
    by_cases hp : upTo 47 path = [] <;> by_cases hr : upTo 47 r1 = [] <;>
      by_cases h3 : r2 = [] <;>
      simp [hp, hr, h3, index_zero_cons, index_one_cons, index_two_cons, Outcome.ok_bind,
        Outcome.pure_bind, CutSuffix_git]

theorem Contains_scheme_of_no_colon {s : GoString} (h : 58 ∉ s) :
    Contains s (bytes "://") = false := by
  rw [bytes_scheme]
  unfold Contains
  have : Index s [58, 47, 47] = none := by
    induction s with
    | nil => simp [Index]
    | cons a t ih =>
      simp only [List.mem_cons, not_or] at h
      have ha : ¬ a = 58 := fun e => h.1 e.symm
      have hp : HasPrefix (a :: t) [58, 47, 47] = false := by
        simp only [HasPrefix, decide_eq_false_iff_not, not_and]
        intro _ ht
        cases t with
        | nil => simp at ht
        | cons b t2 =>
          simp at ht
          exact ha ht.1
      simp [Index, hp, ih h.2]
  simp [this]

theorem bareReference_domain {s : GoString} {info : repoInfo} (h : bareReference s = some info) :
    info.EnterpriseDomain = [] := by
  unfold bareReference at h
  simp only at h
  split at h
  · exact absurd h (by simp)
  · simp only [Option.some.injEq] at h
    rw [← h]

theorem past_append {c : Nat} {h : GoString} (p : GoString) (hc : c ∉ h) :
    past c (h ++ c :: p) = some p := by
  induction h with
  | nil => simp [past_cons]
  | cons a t ih =>
    simp only [List.mem_cons, not_or] at hc
    have ha : ¬ a = c := fun e => hc.1 e.symm
    simp [past_cons, ha, ih hc.2]

theorem upTo_append {c : Nat} {h : GoString} (p : GoString) (hc : c ∉ h) :
    upTo c (h ++ c :: p) = h := by
  induction h with
  | nil => simp [upTo_cons]
  | cons a t ih =>
    simp only [List.mem_cons, not_or] at hc
    have ha : ¬ a = c := fun e => hc.1 e.symm
    simp [upTo_cons, ha, ih hc.2]

theorem genSplitLoop_of_not_mem {c : Nat} (k : Nat) {s : GoString} (h : c ∉ s) :
    genSplitLoop [c] k s = [s] := by
  cases k with
  | zero => rfl
  | succ k => simp [genSplitLoop_single_succ, (past_eq_none_iff c s).2 h]

theorem genSplitLoop_length_pos (sep : GoString) (k : Nat) (s : GoString) :
    1 ≤ (genSplitLoop sep k s).length := by
  cases k with
  | zero => simp [genSplitLoop]
  | succ k =>
    rw [genSplitLoop]
    cases Index s sep <;> simp

theorem afterLast_of_not_mem {c : Nat} {s : GoString} (h : c ∉ s) : afterLast c s = s := by
  unfold afterLast
  rw [upTo_of_not_mem (by simpa using h)]
  simp

theorem afterLast_append {c : Nat} (u : GoString) {t : GoString} (h : c ∉ t) :
    afterLast c (u ++ c :: t) = t := by
  unfold afterLast
  have : (u ++ c :: t).reverse = t.reverse ++ c :: u.reverse := by simp
  rw [this, upTo_append _ (by simpa using h)]
  simp

/-- The three cases of the number of `c` in a string. -/
theorem count_cases (c : Nat) (s : GoString) :
    (c ∉ s ∧ s.count c = 0) ∨
    (∃ u t, s = u ++ c :: t ∧ c ∉ u ∧ c ∉ t ∧ s.count c = 1) ∨
    (∃ u t, s = u ++ c :: t ∧ c ∉ u ∧ c ∈ t ∧ 2 ≤ s.count c) := by
  cases hp : past c s with
  | none =>
    have := (past_eq_none_iff c s).1 hp
    exact Or.inl ⟨this, List.count_eq_zero.2 this⟩
  | some t =>
    have hs := upTo_append_of_past hp
    have hu := not_mem_upTo c s
    have hcu : (upTo c s).count c = 0 := List.count_eq_zero.2 hu
    have hcount : s.count c = t.count c + 1 := by
      conv_lhs => rw [hs]
      simp [List.count_append, hcu]
    by_cases ht : c ∈ t
    · refine Or.inr (Or.inr ⟨upTo c s, t, hs, hu, ht, ?_⟩)
      have := List.count_pos_iff.2 ht
      omega
    · refine Or.inr (Or.inl ⟨upTo c s, t, hs, hu, ht, ?_⟩)
      rw [hcount, List.count_eq_zero.2 ht]

/-- The shape of `strings.Split(hostPart, "@")`: one element without `@`, two
with one `@`, three or more otherwise; with at most one `@` the last element is
the text after the last `@`. -/
theorem Split_at_cases (h : GoString) :
    (h.count 64 ≤ 1 ∧ (Split h (bytes "@") = [afterLast 64 h] ∨
      ∃ u, Split h (bytes "@") = [u, afterLast 64 h])) ∨
    (2 ≤ h.count 64 ∧ ∃ a b c rest, Split h (bytes "@") = a :: b :: c :: rest) := by
  rw [bytes_at]
  unfold Split
  rcases count_cases 64 h with ⟨hn, hc⟩ | ⟨u, t, rfl, hu, ht, hc⟩ | ⟨u, t, rfl, hu, ht, hc⟩
  · left
    rw [genSplitLoop_of_not_mem _ hn, hc, afterLast_of_not_mem hn]
    exact ⟨by omega, Or.inl rfl⟩
  · left
    have hl : (u ++ 64 :: t).length = (u.length + t.length) + 1 := by simp; omega
    rw [hl, genSplitLoop_single_succ, past_append _ hu, upTo_append _ hu, hc,
      afterLast_append _ ht]
    simp only [genSplitLoop_of_not_mem _ ht]
    exact ⟨by omega, Or.inr ⟨u, rfl⟩⟩
  · right
    refine ⟨hc, ?_⟩
    have hl : (u ++ 64 :: t).length = (u.length + t.length) + 1 := by simp; omega
    rw [hl, genSplitLoop_single_succ, past_append _ hu, upTo_append _ hu]
    simp only
    have hk : ∃ k, u.length + t.length = k + 1 := by
      cases t with
      | nil => simp at ht
      | cons b t2 => exact ⟨u.length + t2.length, by simp; omega⟩
    obtain ⟨k, hk⟩ := hk
    rw [hk, genSplitLoop_single_succ]
    obtain ⟨r, hr⟩ : ∃ r, past 64 t = some r := by
      cases hp : past 64 t with
      | none => exact absurd ((past_eq_none_iff 64 t).1 hp) (by simpa using ht)
      | some r => exact ⟨r, rfl⟩
    rw [hr]
    simp only
    have h1 := genSplitLoop_length_pos [64] k r
    generalize hg : genSplitLoop [64] k r = g at h1
    match g, h1 with
    | c :: g2, _ => exact ⟨u, upTo 64 t, c, g2, rfl⟩

/-- The SCP-like branch of `parseRepoURL` (lines 64-85) on `hostPart:path`. -/
theorem specifierPath_scp (urlParse : UrlParse) (h p : GoString) (hh : 58 ∉ h)
    (hs : Contains (h ++ 58 :: p) (bytes "://") = false) :
    specifierPath urlParse (h ++ 58 :: p) =
      if 58 ∈ p then .error errInvalidFormat
      else if h.count 64 ≤ 1 then .ok (enterpriseOf (afterLast 64 h), p)
      else .error errInvalidFormat := by
  unfold specifierPath
  have hc : ContainsRune (h ++ 58 :: p) 58 = true := by simp [ContainsRune]
  simp only [hs, hc, if_true, Bool.false_eq_true, if_false]
  rw [bytes_colon, SplitN_three, genSplitLoop_single_succ, past_append _ hh, upTo_append _ hh]
  simp only [genSplitLoop_single_succ, genSplitLoop_zero]
  by_cases hp : 58 ∈ p
  · obtain ⟨r, hr⟩ : ∃ r, past 58 p = some r := by
      cases hp2 : past 58 p with
      | none => exact absurd ((past_eq_none_iff 58 p).1 hp2) (by simpa using hp)
      | some r => exact ⟨r, rfl⟩
    simp [hr, hp]
  · have hn := (past_eq_none_iff 58 p).2 hp
    simp only [hn, hp, if_false]
    simp only [index_zero_cons, index_one_cons, Outcome.ok_bind, List.length_cons,
      List.length_nil]
    rcases Split_at_cases h with ⟨hcount, hsp | ⟨u, hsp⟩⟩ | ⟨hcount, a, b, c, rest, hsp⟩
    · simp only [hsp, hcount, if_true, List.length_cons, List.length_nil, index_zero_cons,
        Outcome.ok_bind, enterpriseOf]
      by_cases hd : afterLast 64 h = githubDotComDomain <;> simp [hd]
    · simp only [hsp, hcount, if_true, List.length_cons, List.length_nil, index_one_cons,
        Outcome.ok_bind, enterpriseOf]
      by_cases hd : afterLast 64 h = githubDotComDomain <;> simp [hd]
    · have h2 : ¬ (List.count 64 h ≤ 1) := by omega
      simp only [hsp, h2, if_false, List.length_cons]
      rfl

theorem exists_split_of_mem {c : Nat} {s : GoString} (h : c ∈ s) :
    ∃ u p, s = u ++ c :: p ∧ c ∉ u := by
  cases hp : past c s with
  | none => exact absurd h ((past_eq_none_iff c s).1 hp)
  | some p => exact ⟨upTo c s, p, upTo_append_of_past hp, not_mem_upTo c s⟩

theorem mem_of_mem_upTo {c x : Nat} {s : GoString} (h : x ∈ upTo c s) : x ∈ s :=
  (List.takeWhile_sublist _).subset h

theorem mem_of_mem_past {c x : Nat} {s r : GoString} (hp : past c s = some r) (h : x ∈ r) :
    x ∈ s := by
  rw [upTo_append_of_past hp]
  simp [h]

theorem stripGit_isPrefix (x : GoString) : stripGit x <+: x := by
  unfold stripGit
  split
  · next r hr =>
    have := congrArg List.reverse hr
    simp at this
    rw [this]
    exact List.prefix_append _ _
  · exact List.prefix_refl _

theorem stripGit_of_not_suffix {x : GoString} (h : ¬ bytes ".git" <:+ x) : stripGit x = x := by
  rw [bytes_git] at h
  unfold stripGit
  split
  · next r hr =>
    exfalso
    apply h
    have := congrArg List.reverse hr
    simp at this
    rw [this]
    exact List.suffix_append _ _
  · rfl

theorem stripGit_eq_nil_iff (x : GoString) :
    stripGit x = [] ↔ x = [] ∨ x = bytes ".git" := by
  rw [bytes_git]
  unfold stripGit
  split
  · next r hr =>
    have := congrArg List.reverse hr
    simp at this
    rw [this]
    simp
  · simp
    intro h
    subst h
    simp_all

/-- What a successful reference parse returns, in terms of the segments. -/
theorem bareReference_some {path : GoString} {info : repoInfo}
    (h : bareReference path = some info) :
    info.Owner = upTo 47 path ∧ info.Owner ≠ [] ∧
      info.Repo = ((secondSegment path).map stripGit).getD [] := by
  unfold bareReference at h
  unfold secondSegment
  rcases slashParts_cases path with ⟨hp, hsl⟩ | ⟨r1, hp, hp2, hsl⟩ | ⟨r1, r2, hp, hp2, hsl⟩
  · simp only [hsl] at h
    have hu : upTo 47 path = path := upTo_of_not_mem ((past_eq_none_iff _ _).1 hp)
    by_cases hn : path = []
    · simp [hn] at h
    · simp [hn] at h
      subst h
      simp [hp, hu, hn]
  · simp only [hsl] at h
    have hu : upTo 47 r1 = r1 := upTo_of_not_mem ((past_eq_none_iff _ _).1 hp2)
    by_cases hn : upTo 47 path = []
    · simp [hn] at h
    · simp [hn] at h
      subst h
      simp [hp, hu, hn]
      by_cases hr : r1 = []
      · simp [hr, stripGit]
      · simp [hr]
  · simp only [hsl] at h
    by_cases hn : upTo 47 path = []
    · simp [hn] at h
    · by_cases h3 : r2 = []
      · simp [hn, h3] at h
        subst h
        simp [hp, hn]
        by_cases hr : upTo 47 r1 = []
        · simp [hr, stripGit]
        · simp [hr]
      · simp [hn, h3] at h

theorem bareReference_owner_only {o : GoString} (ho : o ≠ []) (h47 : 47 ∉ o) :
    bareReference o = some ⟨[], o, []⟩ := by
  unfold bareReference slashParts
  simp [(past_eq_none_iff 47 o).2 h47, ho]

theorem bareReference_owner_repo {o r : GoString} (ho : o ≠ []) (h47 : 47 ∉ o)
    (hr : r ≠ []) (hr47 : 47 ∉ r) :
    bareReference (o ++ 47 :: r) = some ⟨[], o, stripGit r⟩ := by
  unfold bareReference slashParts
  simp [past_append _ h47, upTo_append _ h47, (past_eq_none_iff 47 r).2 hr47, ho, hr]

/-- Outside the URL form a specifier that passes the first half of
`parseRepoURL` leaves a remainder without colon. -/
theorem specifierPath_not_url {urlParse : UrlParse} {s ed path : GoString}
    (hs : Contains s (bytes "://") = false) (h : specifierPath urlParse s = .ok (ed, path)) :
    58 ∉ path := by
  by_cases hc : 58 ∈ s
  · obtain ⟨u, p, rfl, hu⟩ := exists_split_of_mem hc
    rw [specifierPath_scp urlParse u p hu hs] at h
    by_cases hp : 58 ∈ p
    · simp [hp] at h
    · by_cases hcount : u.count 64 ≤ 1
      · simp [hp, hcount] at h
        rw [← h.2]
        exact hp
      · simp [hp, hcount] at h
  · simp [specifierPath, hs, ContainsRune, hc] at h
    rw [← h.2]
    exact hc

/-- A specifier without colon goes through the bare branch. -/
theorem parseRepoURL_of_no_colon (urlParse : UrlParse) (s : GoString) (h : 58 ∉ s) :
    parseRepoURL urlParse s =
      match bareReference s with
      | some info => .ok info
      | none => .error errInvalidFormat := by
  have h1 : specifierPath urlParse s = .ok ([], s) := by
    simp [specifierPath, Contains_scheme_of_no_colon h, ContainsRune, h]
  unfold parseRepoURL
  rw [h1]
  show splitOwnerRepo [] s = _
  rw [splitOwnerRepo_eq]
  cases hb : bareReference s with
  | none => rfl
  | some info =>
    have := bareReference_domain hb
    cases info
    simp_all

/-- A successful parse is a successful first half followed by a successful
reference parse of the remainder. -/
theorem parseRepoURL_ok {urlParse : UrlParse} {s : GoString} {info : repoInfo}
    (h : parseRepoURL urlParse s = .ok info) :
    ∃ ed path ref, specifierPath urlParse s = .ok (ed, path) ∧ bareReference path = some ref ∧
      info = { ref with EnterpriseDomain := ed } := by
  unfold parseRepoURL at h
  cases hsp : specifierPath urlParse s with
  | error e => rw [hsp] at h; exact absurd h (by intro h; cases h)
  | panic m => rw [hsp] at h; exact absurd h (by intro h; cases h)
  | ok v =>
    obtain ⟨ed, path⟩ := v
    rw [hsp] at h
    have h2 : splitOwnerRepo ed path = .ok info := h
    rw [splitOwnerRepo_eq] at h2
    cases hb : bareReference path with
    | none => rw [hb] at h2; exact absurd h2 (by intro h; cases h)
    | some ref =>
      rw [hb] at h2
      simp only [Outcome.ok.injEq] at h2
      exact ⟨ed, path, ref, rfl, hb, h2.symm⟩

/-- Outside the URL form `parseRepoURL` always returns: a `repoInfo`, or the
error `invalid repo URL format`. -/
theorem parseRepoURL_not_url_returns (urlParse : UrlParse) (s : GoString)
    (hs : Contains s (bytes "://") = false) :
    (∃ info, parseRepoURL urlParse s = .ok info) ∨
      parseRepoURL urlParse s = .error errInvalidFormat := by
  have hsplit : ∀ ed path, (∃ info, splitOwnerRepo ed path = .ok info) ∨
      splitOwnerRepo ed path = .error errInvalidFormat := by
    intro ed path
    rw [splitOwnerRepo_eq]
    cases bareReference path with
    | none => exact Or.inr rfl
    | some ref => exact Or.inl ⟨_, rfl⟩
  unfold parseRepoURL
  by_cases hc : 58 ∈ s
  · obtain ⟨u, p, rfl, hu⟩ := exists_split_of_mem hc
    rw [specifierPath_scp urlParse u p hu hs]
    by_cases hp : 58 ∈ p
    · simp only [hp, if_true]
      exact Or.inr rfl
    · by_cases hcount : u.count 64 ≤ 1
      · simp only [hp, hcount, if_true, if_false]
        exact hsplit _ p
      · simp only [hp, hcount, if_false]
        exact Or.inr rfl
  · have h1 : specifierPath urlParse s = .ok ([], s) := by
      simp [specifierPath, hs, ContainsRune, hc]
    rw [h1]
    exact hsplit [] s

/-! ## The claims on `parseRepoURL` -/

/-- Claim C1: on a specifier without a colon (the bare form) `parseRepoURL` is
the reference of the specification: split on `/` into at most 3 parts, fail iff
the first part is empty or a non-empty third part exists, otherwise the owner is
the first part, the repo the second part less one trailing `.git` (empty when
the second part is missing or empty), and no enterprise domain. -/
theorem parseRepoURL_bare_eq_reference (urlParse : UrlParse) (s : GoString) (h : 58 ∉ s) :
    parseRepoURL urlParse s =
      match bareReference s with
      | some info => .ok info
      | none => .error errInvalidFormat :=
  parseRepoURL_of_no_colon urlParse s h

/-- Witness of C1, at the specifiers the claim names. -/
theorem parseRepoURL_bare_eq_reference_witness :
    parseRepoURL urlParseNever (bytes "dayflower/ghatoken.git")
        = .ok ⟨[], bytes "dayflower", bytes "ghatoken"⟩ ∧
      parseRepoURL urlParseNever (bytes "owner/") = .ok ⟨[], bytes "owner", []⟩ ∧
      parseRepoURL urlParseNever (bytes "owner") = .ok ⟨[], bytes "owner", []⟩ ∧
      parseRepoURL urlParseNever (bytes "owner/repo/")
        = .ok ⟨[], bytes "owner", bytes "repo"⟩ ∧
      parseRepoURL urlParseNever (bytes "owner/repo/extra") = .error errInvalidFormat ∧
      parseRepoURL urlParseNever (bytes "") = .error errInvalidFormat :=
  ⟨(parseRepoURL_bare_eq_reference urlParseNever (bytes "dayflower/ghatoken.git")
      (by decide)).trans (by decide),
    (parseRepoURL_bare_eq_reference urlParseNever (bytes "owner/") (by decide)).trans (by decide),
    (parseRepoURL_bare_eq_reference urlParseNever (bytes "owner") (by decide)).trans (by decide),
    (parseRepoURL_bare_eq_reference urlParseNever (bytes "owner/repo/")
      (by decide)).trans (by decide),
    (parseRepoURL_bare_eq_reference urlParseNever (bytes "owner/repo/extra")
      (by decide)).trans (by decide),
    (parseRepoURL_bare_eq_reference urlParseNever (bytes "") (by decide)).trans (by decide)⟩

/-- Claim C2, the input on which the code aborts: on a URL-form specifier that
`url.Parse` accepts with an empty path, the slice expression `u.Path[1:]` of
line 63 panics, so `parseRepoURL` returns neither a `repoInfo` nor an error. -/
theorem parseRepoURL_panics_on_empty_url_path (urlParse : UrlParse) (s host : GoString)
    (hs : Contains s (bytes "://") = true)
    (hu : urlParse s = .ok { Hostname := host, Path := [] }) :
    parseRepoURL urlParse s = .panic (bytes "runtime error: slice bounds out of range [1:0]") := by
  simp [parseRepoURL, specifierPath, hs, hu]
  rfl

/-- Witness of C2: `https://github.com`, whose path is empty. -/
theorem parseRepoURL_panics_on_empty_url_path_witness :
    urlParsePlain (bytes "https://github.com")
      = .ok { Hostname := bytes "github.com", Path := [] } ∧
    parseRepoURL urlParsePlain (bytes "https://github.com")
      = .panic (bytes "runtime error: slice bounds out of range [1:0]") :=
  ⟨rfl,
    parseRepoURL_panics_on_empty_url_path urlParsePlain (bytes "https://github.com")
      (bytes "github.com") (by decide) rfl⟩

/-- Claim C3, as stated, fails: with two `@` in the host part the text after
the last `@` is `enterprise.example.net`, but the specifier is rejected. -/
theorem parseRepoURL_scp_two_at_rejected :
    afterLast 64 (bytes "git@x@enterprise.example.net") = bytes "enterprise.example.net" ∧
    parseRepoURL urlParseNever (bytes "git@x@enterprise.example.net:dayflower/ghatoken.git")
      = .error errInvalidFormat := by
  decide

/-- Claim C3, amended: on an SCP-like specifier `hostPart:path` (one colon, no
`://`) whose host part has at most one `@`, the host is the text after the `@`
(the whole part without `@`), the enterprise domain is that host unless it is
`github.com`, and the part after the colon is split as the remainder; with two
or more `@` in the host part the specifier is rejected. -/
theorem parseRepoURL_scp (urlParse : UrlParse) (hostPart path : GoString)
    (hh : 58 ∉ hostPart) (hp : 58 ∉ path)
    (hs : Contains (hostPart ++ 58 :: path) (bytes "://") = false) :
    parseRepoURL urlParse (hostPart ++ 58 :: path) =
      if hostPart.count 64 ≤ 1 then
        match bareReference path with
        | some info =>
          .ok { info with EnterpriseDomain := enterpriseOf (afterLast 64 hostPart) }
        | none => .error errInvalidFormat
      else .error errInvalidFormat := by
  unfold parseRepoURL
  rw [specifierPath_scp urlParse hostPart path hh hs]
  simp only [hp, if_false]
  by_cases hc : hostPart.count 64 ≤ 1
  · simp only [hc, if_true]
    show splitOwnerRepo _ path = _
    rw [splitOwnerRepo_eq]
  · simp only [hc, if_false]
    rfl

/-- Witness of C3, at the specifiers of the doc comment of `parseRepoURL`. -/
theorem parseRepoURL_scp_witness :
    parseRepoURL urlParseNever
        (bytes "git@enterprise.example.net" ++ 58 :: bytes "dayflower/ghatoken.git")
      = .ok ⟨bytes "enterprise.example.net", bytes "dayflower", bytes "ghatoken"⟩ ∧
    parseRepoURL urlParseNever (bytes "git@github.com" ++ 58 :: bytes "dayflower")
      = .ok ⟨[], bytes "dayflower", []⟩ :=
  ⟨(parseRepoURL_scp urlParseNever (bytes "git@enterprise.example.net")
      (bytes "dayflower/ghatoken.git") (by decide) (by decide) (by decide)).trans (by decide),
    (parseRepoURL_scp urlParseNever (bytes "git@github.com") (bytes "dayflower")
      (by decide) (by decide) (by decide)).trans (by decide)⟩

/-- Claim C4, as stated, fails: `owner/repo.git.git` parses to the repo
`repo.git`, and the rebuilt specifier `owner/repo.git` parses to the repo `repo`;
in URL form `https://github.com/a:b/c` parses to the owner `a:b`, and the rebuilt
specifier `a:b/c` is SCP-like, with owner `b`. -/
theorem parseRepoURL_roundtrip_fails :
    (parseRepoURL urlParseNever (bytes "owner/repo.git.git")
        = .ok ⟨[], bytes "owner", bytes "repo.git"⟩ ∧
      parseRepoURL urlParseNever (reconstruct ⟨[], bytes "owner", bytes "repo.git"⟩)
        = .ok ⟨[], bytes "owner", bytes "repo"⟩) ∧
    (parseRepoURL urlParsePlain (bytes "https://github.com/a:b/c")
        = .ok ⟨[], bytes "a:b", bytes "c"⟩ ∧
      parseRepoURL urlParsePlain (reconstruct ⟨[], bytes "a:b", bytes "c"⟩)
        = .ok ⟨bytes "a", bytes "b", bytes "c"⟩) := by
  decide

/-- Claim C4, amended: when `parseRepoURL` succeeds with owner `o` and repo `r`,
`r` does not end in `.git`, and the specifier is not in URL form or the rebuilt
specifier has no colon, then parsing the rebuilt specifier (`o`, or `o/r` when
`r` is present) succeeds with the same owner and the same repo. -/
theorem parseRepoURL_roundtrip (urlParse : UrlParse) (s : GoString) (info : repoInfo)
    (h : parseRepoURL urlParse s = .ok info)
    (hgit : ¬ bytes ".git" <:+ info.Repo)
    (hform : Contains s (bytes "://") = false ∨ 58 ∉ reconstruct info) :
    parseRepoURL urlParse (reconstruct info)
      = .ok { EnterpriseDomain := [], Owner := info.Owner, Repo := info.Repo } := by
  obtain ⟨ed, path, ref, hsp, hb, rfl⟩ := parseRepoURL_ok h
  obtain ⟨ho, hne, hr⟩ := bareReference_some hb
  simp only at hgit ⊢
  -- the owner and the repo have no slash
  have ho47 : 47 ∉ ref.Owner := by rw [ho]; exact not_mem_upTo 47 path
  have hsub : ∀ x, x ∈ ref.Repo → ∃ sec, secondSegment path = some sec ∧ x ∈ sec := by
    intro x hx
    rw [hr] at hx
    cases hsec : secondSegment path with
    | none => simp [hsec] at hx
    | some sec =>
      simp [hsec] at hx
      exact ⟨sec, rfl, (stripGit_isPrefix sec).subset hx⟩
  have hr47 : 47 ∉ ref.Repo := by
    intro hx
    obtain ⟨sec, hsec, hmem⟩ := hsub 47 hx
    unfold secondSegment at hsec
    cases hp : past 47 path with
    | none => simp [hp] at hsec
    | some r1 =>
      simp [hp] at hsec
      rw [← hsec] at hmem
      exact not_mem_upTo 47 r1 hmem
  -- the rebuilt specifier has no colon
  have hcolon : 58 ∉ reconstruct { ref with EnterpriseDomain := ed } := by
    rcases hform with hurl | hc
    · have hp58 := specifierPath_not_url hurl hsp
      have ho58 : 58 ∉ ref.Owner := by
        rw [ho]
        exact fun hx => hp58 (mem_of_mem_upTo hx)
      have hr58 : 58 ∉ ref.Repo := by
        intro hx
        obtain ⟨sec, hsec, hmem⟩ := hsub 58 hx
        unfold secondSegment at hsec
        cases hp : past 47 path with
        | none => simp [hp] at hsec
        | some r1 =>
          simp [hp] at hsec
          rw [← hsec] at hmem
          exact hp58 (mem_of_mem_past hp (mem_of_mem_upTo hmem))
      unfold reconstruct
      by_cases hrn : ref.Repo = []
      · simp [hrn, ho58]
      · simp [hrn, ho58, hr58, bytes_slash]
    · exact hc
  rw [parseRepoURL_of_no_colon urlParse _ hcolon]
  unfold reconstruct
  by_cases hrn : ref.Repo = []
  · simp only [hrn, if_true]
    rw [bareReference_owner_only hne ho47]
  · simp only [hrn, if_false, bytes_slash, List.append_assoc, List.singleton_append]
    rw [bareReference_owner_repo hne ho47 hrn hr47, stripGit_of_not_suffix hgit]

/-- Witness of C4, at an SCP-like specifier. -/
theorem parseRepoURL_roundtrip_witness :
    parseRepoURL urlParseNever (bytes "dayflower/ghatoken")
      = .ok ⟨[], bytes "dayflower", bytes "ghatoken"⟩ :=
  parseRepoURL_roundtrip urlParseNever (bytes "git@enterprise.example.net:dayflower/ghatoken.git")
    ⟨bytes "enterprise.example.net", bytes "dayflower", bytes "ghatoken"⟩
    (by decide) (by decide) (Or.inl (by decide))

/-- Claim C5, as stated, fails: in `owner/.git` the second segment is `.git`,
not empty, and the parse succeeds with the repo absent. -/
theorem parseRepoURL_repo_absent_with_second_segment :
    specifierPath urlParseNever (bytes "owner/.git") = .ok ([], bytes "owner/.git") ∧
    secondSegment (bytes "owner/.git") = some (bytes ".git") ∧
    parseRepoURL urlParseNever (bytes "owner/.git") = .ok ⟨[], bytes "owner", []⟩ := by
  decide

/-- Claim C5, amended: when `parseRepoURL` succeeds, the repo is the second
segment of the remainder less one trailing `.git`; it is absent (empty) exactly
when the remainder has no second segment, an empty one, or the second segment is
`.git` itself, and present and non-empty for every other second segment. -/
theorem parseRepoURL_repo_absent_iff (urlParse : UrlParse) (s : GoString) (info : repoInfo)
    (h : parseRepoURL urlParse s = .ok info) :
    ∃ ed path, specifierPath urlParse s = .ok (ed, path) ∧
      (info.Repo = [] ↔
        secondSegment path = none ∨ secondSegment path = some [] ∨
          secondSegment path = some (bytes ".git")) ∧
      (∀ sec, secondSegment path = some sec → info.Repo = stripGit sec) := by
  obtain ⟨ed, path, ref, hsp, hb, rfl⟩ := parseRepoURL_ok h
  obtain ⟨_, _, hr⟩ := bareReference_some hb
  refine ⟨ed, path, hsp, ?_, ?_⟩
  · simp only
    rw [hr]
    cases hsec : secondSegment path with
    | none => simp
    | some sec => simp [stripGit_eq_nil_iff]
  · intro sec hsec
    simp only
    rw [hr, hsec]
    rfl

/-- Witness of C5: a present repo and an absent one. -/
theorem parseRepoURL_repo_absent_iff_witness :
    ∃ ed path, specifierPath urlParseNever (bytes "git@github.com:dayflower/ghatoken.git")
        = .ok (ed, path) ∧
      (bytes "ghatoken" = [] ↔
        secondSegment path = none ∨ secondSegment path = some [] ∨
          secondSegment path = some (bytes ".git")) ∧
      (∀ sec, secondSegment path = some sec → bytes "ghatoken" = stripGit sec) :=
  parseRepoURL_repo_absent_iff urlParseNever (bytes "git@github.com:dayflower/ghatoken.git")
    ⟨[], bytes "dayflower", bytes "ghatoken"⟩ (by decide)

/-! ## The claims on `lib.go` -/

/-- Claim C6: in mode `{TryOrg: true, TryUser: true}`, when the user lookup
succeeds and the org lookup succeeds or fails with status 404, the requests are
the org lookup, the user lookup and the token request for the id of the user
installation, and the run ends as the token request does: no lookup error. -/
theorem orgOrUser_user_installation_wins (client : AppsService) (owner : GoString)
    (orgInst : Option Installation) (orgResp : Option Response) (orgErr : Option GoError)
    (userInst : Installation) (userResp : Option Response) (id : Int)
    (horg : client.FindOrganizationInstallation owner = (orgInst, orgResp, orgErr))
    (h404 : orgErr = none ∨ ∃ resp, orgResp = some resp ∧ resp.StatusCode = 404)
    (huser : client.FindUserInstallation owner = (some userInst, userResp, none))
    (hid : userInst.ID = some id) :
    (CreateInstallationTokenForOrgOrUser client owner { TryOrg := true, TryUser := true }).calls
      = [.FindOrganizationInstallation owner, .FindUserInstallation owner,
          .CreateInstallationToken id ⟨[]⟩] ∧
    (CreateInstallationTokenForOrgOrUser client owner { TryOrg := true, TryUser := true }).outcome
      = tokenOutcome
          (bytes "createInstallationTokenForOrgOrUser: failed to create installation token. ")
          (client.CreateInstallationToken id ⟨[]⟩) := by
  rcases h404 with rfl | ⟨resp, rfl, hresp⟩
  · rcases hc : client.CreateInstallationToken id ⟨[]⟩ with ⟨tok, r, e⟩
    cases e <;> cases tok <;>
      simp [CreateInstallationTokenForOrgOrUser, bind, Run.bind, request, deref, fail, pure,
        horg, huser, hid, hc, tokenOutcome]
  · rcases hc : client.CreateInstallationToken id ⟨[]⟩ with ⟨tok, r, e⟩
    cases orgErr <;> cases e <;> cases tok <;>
      simp [CreateInstallationTokenForOrgOrUser, bind, Run.bind, request, deref, fail, pure,
        horg, huser, hid, hc, hresp, tokenOutcome]

/-- Witness of C6: the org lookup answers 404 and the user lookup succeeds. -/
theorem orgOrUser_user_installation_wins_witness :
    (CreateInstallationTokenForOrgOrUser clientOrgNotFound (bytes "dayflower")
        { TryOrg := true, TryUser := true }).calls
      = [.FindOrganizationInstallation (bytes "dayflower"),
          .FindUserInstallation (bytes "dayflower"), .CreateInstallationToken 7 ⟨[]⟩] ∧
    (CreateInstallationTokenForOrgOrUser clientOrgNotFound (bytes "dayflower")
        { TryOrg := true, TryUser := true }).outcome
      = .ok (some (bytes "ghs_token")) :=
  orgOrUser_user_installation_wins clientOrgNotFound (bytes "dayflower") none (some ⟨404⟩)
    (some (Errorf "404 Not Found")) ⟨some 7⟩ (some ⟨200⟩) 7 rfl (Or.inr ⟨⟨404⟩, rfl, rfl⟩) rfl rfl

/-- Claim C7, the input on which the code aborts: with `TryOrg` set, an org
lookup that fails without a response (a nil `*github.Response`, as on a
transport error) makes line 108 read `resp.StatusCode` through a nil pointer;
the run panics after the org lookup instead of returning the wrapped error. -/
theorem orgOrUser_panics_without_response (client : AppsService) (owner : GoString)
    (ownerMode : OwnerMode) (inst : Option Installation) (err : GoError)
    (hmode : ownerMode.TryOrg = true)
    (horg : client.FindOrganizationInstallation owner = (inst, none, some err)) :
    (CreateInstallationTokenForOrgOrUser client owner ownerMode).calls
      = [.FindOrganizationInstallation owner] ∧
    (CreateInstallationTokenForOrgOrUser client owner ownerMode).outcome
      = .panic nilDereference := by
  simp [CreateInstallationTokenForOrgOrUser, bind, Run.bind, request, deref, hmode, horg]

/-- Witness of C7: a transport error during the org lookup. -/
theorem orgOrUser_panics_without_response_witness :
    (CreateInstallationTokenForOrgOrUser clientUnreachable (bytes "dayflower")
        { TryOrg := true, TryUser := true }).calls
      = [.FindOrganizationInstallation (bytes "dayflower")] ∧
    (CreateInstallationTokenForOrgOrUser clientUnreachable (bytes "dayflower")
        { TryOrg := true, TryUser := true }).outcome
      = .panic nilDereference :=
  orgOrUser_panics_without_response clientUnreachable (bytes "dayflower")
    { TryOrg := true, TryUser := true } none (Errorf "dial tcp: connection refused") rfl rfl

/-- The part of C7 that the code does: with `TryOrg` set, an org lookup that
fails with a response whose status is not 404 ends the run with the error of
line 111 wrapping the cause, after the org lookup alone. -/
theorem orgOrUser_org_failure_with_response (client : AppsService) (owner : GoString)
    (ownerMode : OwnerMode) (inst : Option Installation) (resp : Response) (err : GoError)
    (hmode : ownerMode.TryOrg = true)
    (horg : client.FindOrganizationInstallation owner = (inst, some resp, some err))
    (hstatus : resp.StatusCode ≠ 404) :
    (CreateInstallationTokenForOrgOrUser client owner ownerMode).calls
      = [.FindOrganizationInstallation owner] ∧
    (CreateInstallationTokenForOrgOrUser client owner ownerMode).outcome
      = .error (errFindOrg owner err) := by
  simp [CreateInstallationTokenForOrgOrUser, bind, Run.bind, request, deref, fail, hmode, horg,
    hstatus]

/-- Claim C8: in mode `{TryOrg: true, TryUser: false}`, and so in
`CreateInstallationTokenForOrg`, an org lookup that fails with status 404 (no
installation, a response with status 404, an error) ends the run with the error
of line 125, after the org lookup alone: no user lookup, no token request. -/
theorem orgOnly_not_found (client : AppsService) (owner : GoString) (resp : Response)
    (err : GoError)
    (horg : client.FindOrganizationInstallation owner = (none, some resp, some err))
    (hstatus : resp.StatusCode = 404) :
    (CreateInstallationTokenForOrgOrUser client owner { TryOrg := true, TryUser := false }).calls
      = [.FindOrganizationInstallation owner] ∧
    (CreateInstallationTokenForOrgOrUser client owner { TryOrg := true, TryUser := false }).outcome
      = .error (errNoInstallation owner) ∧
    (CreateInstallationTokenForOrg client owner).calls = [.FindOrganizationInstallation owner] ∧
    (CreateInstallationTokenForOrg client owner).outcome = .error (errNoInstallation owner) := by
  simp [CreateInstallationTokenForOrg, CreateInstallationTokenForOrgOrUser, bind, Run.bind,
    request, deref, fail, pure, horg, hstatus]

/-- Witness of C8. -/
theorem orgOnly_not_found_witness :
    (CreateInstallationTokenForOrgOrUser clientOrgNotFound (bytes "dayflower")
        { TryOrg := true, TryUser := false }).calls
      = [.FindOrganizationInstallation (bytes "dayflower")] ∧
    (CreateInstallationTokenForOrgOrUser clientOrgNotFound (bytes "dayflower")
        { TryOrg := true, TryUser := false }).outcome
      = .error (errNoInstallation (bytes "dayflower")) ∧
    (CreateInstallationTokenForOrg clientOrgNotFound (bytes "dayflower")).calls
      = [.FindOrganizationInstallation (bytes "dayflower")] ∧
    (CreateInstallationTokenForOrg clientOrgNotFound (bytes "dayflower")).outcome
      = .error (errNoInstallation (bytes "dayflower")) :=
  orgOnly_not_found clientOrgNotFound (bytes "dayflower") ⟨404⟩ (Errorf "404 Not Found") rfl rfl

/-- Claim C9: in `CreateInstallationTokenForRepo`, when the repository lookup
succeeds the requests are the lookup and the token request for the id of the
installation found, restricted to exactly `[repo]` when `restrictScopeToRepo` is
true and unrestricted when it is false; when the lookup fails the only request
is the lookup and the run ends with the error of line 141, whose message is
`createInstallationTokenForRepo: failed to find repo '<owner>/<repo>'. `
followed by the message of the cause, and which wraps the cause. -/
theorem forRepo_token_request (client : AppsService) (owner repo : GoString)
    (restrictScopeToRepo : Bool) :
    (∀ inst resp id, client.FindRepositoryInstallation owner repo = (some inst, resp, none) →
      inst.ID = some id →
      (CreateInstallationTokenForRepo client owner repo restrictScopeToRepo).calls
        = [.FindRepositoryInstallation owner repo,
            .CreateInstallationToken id ⟨if restrictScopeToRepo then [repo] else []⟩] ∧
      (CreateInstallationTokenForRepo client owner repo restrictScopeToRepo).outcome
        = tokenOutcome
            (bytes "createInstallationTokenForRepo: failed to create installation token. ")
            (client.CreateInstallationToken id ⟨if restrictScopeToRepo then [repo] else []⟩)) ∧
    (∀ inst resp err, client.FindRepositoryInstallation owner repo = (inst, resp, some err) →
      (CreateInstallationTokenForRepo client owner repo restrictScopeToRepo).calls
        = [.FindRepositoryInstallation owner repo] ∧
      (CreateInstallationTokenForRepo client owner repo restrictScopeToRepo).outcome
        = .error (.wrap
            (bytes "createInstallationTokenForRepo: failed to find repo \x27" ++ owner
              ++ bytes "/" ++ repo ++ bytes "\x27. " ++ err.Error)
            err)) := by
  constructor
  · intro inst resp id hfind hid
    cases restrictScopeToRepo
    · rcases hc : client.CreateInstallationToken id ⟨[]⟩ with ⟨tok, r, e⟩
      cases e <;> cases tok <;>
        simp [CreateInstallationTokenForRepo, bind, Run.bind, request, deref, fail, pure,
          hfind, hid, hc, tokenOutcome]
    · rcases hc : client.CreateInstallationToken id ⟨[repo]⟩ with ⟨tok, r, e⟩
      cases e <;> cases tok <;>
        simp [CreateInstallationTokenForRepo, bind, Run.bind, request, deref, fail, pure,
          hfind, hid, hc, tokenOutcome]
  · intro inst resp err hfind
    simp [CreateInstallationTokenForRepo, bind, Run.bind, request, fail, hfind, errFindRepo,
      ErrorfW]

/-- Witness of C9: the repo `ghatoken` with the restriction on and off, and a
failing lookup with the error it returns. -/
theorem forRepo_token_request_witness :
    ((CreateInstallationTokenForRepo clientOrgNotFound (bytes "dayflower") (bytes "ghatoken")
          true).calls
        = [.FindRepositoryInstallation (bytes "dayflower") (bytes "ghatoken"),
            .CreateInstallationToken 9 ⟨[bytes "ghatoken"]⟩] ∧
      (CreateInstallationTokenForRepo clientOrgNotFound (bytes "dayflower") (bytes "ghatoken")
          true).outcome
        = .ok (some (bytes "ghs_token"))) ∧
    ((CreateInstallationTokenForRepo clientOrgNotFound (bytes "dayflower") (bytes "ghatoken")
          false).calls
        = [.FindRepositoryInstallation (bytes "dayflower") (bytes "ghatoken"),
            .CreateInstallationToken 9 ⟨[]⟩] ∧
      (CreateInstallationTokenForRepo clientOrgNotFound (bytes "dayflower") (bytes "ghatoken")
          false).outcome
        = .ok (some (bytes "ghs_token"))) ∧
    ((CreateInstallationTokenForRepo clientUnreachable (bytes "dayflower") (bytes "ghatoken")
          true).calls
        = [.FindRepositoryInstallation (bytes "dayflower") (bytes "ghatoken")] ∧
      (CreateInstallationTokenForRepo clientUnreachable (bytes "dayflower") (bytes "ghatoken")
          true).outcome
        = .error (.wrap
            (bytes ("createInstallationTokenForRepo: failed to find repo " ++
              "\x27dayflower/ghatoken\x27. dial tcp: connection refused"))
            (.new (bytes "dial tcp: connection refused")))) :=
  ⟨(forRepo_token_request clientOrgNotFound (bytes "dayflower") (bytes "ghatoken") true).1
      ⟨some 9⟩ (some ⟨200⟩) 9 rfl rfl,
    (forRepo_token_request clientOrgNotFound (bytes "dayflower") (bytes "ghatoken") false).1
      ⟨some 9⟩ (some ⟨200⟩) 9 rfl rfl,
    ⟨((forRepo_token_request clientUnreachable (bytes "dayflower") (bytes "ghatoken") true).2
        none none (Errorf "dial tcp: connection refused") rfl).1,
      ((forRepo_token_request clientUnreachable (bytes "dayflower") (bytes "ghatoken") true).2
        none none (Errorf "dial tcp: connection refused") rfl).2.trans (by decide)⟩⟩

/-- Claim C10: when the first PEM block has a type other than `RSA PRIVATE KEY`,
`PRIVATE KEY` and `ENCRYPTED PRIVATE KEY`, `CreateRSAPrivateKeyFromPEM` returns,
whatever the passphrase, the error of line 62, whose message contains the type;
when no PEM block is found it returns the error `PEM block not found`. -/
theorem createKey_unsupported_or_missing {Key : Type} (lib : KeyLibrary Key)
    (data passphrase : GoString) :
    (∀ block, lib.pemDecode data = some block →
      block.Typ ≠ bytes "RSA PRIVATE KEY" → block.Typ ≠ bytes "PRIVATE KEY" →
      block.Typ ≠ bytes "ENCRYPTED PRIVATE KEY" →
      CreateRSAPrivateKeyFromPEM lib data passphrase = .error (errUnsupported block.Typ) ∧
      bytes "unsupported PEM file: " <+: (errUnsupported block.Typ).Error ∧
      block.Typ <:+: (errUnsupported block.Typ).Error) ∧
    (lib.pemDecode data = none →
      CreateRSAPrivateKeyFromPEM lib data passphrase = .error (Errorf "PEM block not found")) := by
  constructor
  · intro block hb h1 h2 h3
    refine ⟨?_, ?_, ?_⟩
    · simp [CreateRSAPrivateKeyFromPEM, hb, h1, h2, h3]
    · have hq : bytes "unsupported PEM file: \x27" = bytes "unsupported PEM file: " ++ [39] := by
        decide
      exact ⟨[39] ++ block.Typ ++ bytes "\x27", by
        simp [errUnsupported, GoError.Error, hq]⟩
    · exact ⟨bytes "unsupported PEM file: \x27", bytes "\x27", rfl⟩
  · intro hb
    simp [CreateRSAPrivateKeyFromPEM, hb]

/-- Witness of C10: a block of type `FOO`, and an input without block. -/
theorem createKey_unsupported_or_missing_witness :
    (CreateRSAPrivateKeyFromPEM keyLibraryFoo (bytes "data") (bytes "secret")
        = .error (errUnsupported (bytes "FOO")) ∧
      bytes "unsupported PEM file: " <+: (errUnsupported (bytes "FOO")).Error ∧
      bytes "FOO" <:+: (errUnsupported (bytes "FOO")).Error) ∧
    CreateRSAPrivateKeyFromPEM keyLibraryEmpty (bytes "data") (bytes "secret")
      = .error (Errorf "PEM block not found") :=
  ⟨(createKey_unsupported_or_missing keyLibraryFoo (bytes "data") (bytes "secret")).1
      { Typ := bytes "FOO", Headers := [], Bytes := bytes "data" } rfl
      (by decide) (by decide) (by decide),
    (createKey_unsupported_or_missing keyLibraryEmpty (bytes "data") (bytes "secret")).2 rfl⟩

end Ghatoken
